import Mathlib

/-!
Verification of the simple-mcp server core against its specification.

The Go sources are embedded shallowly:
* `task_store.go` — the `TaskStore` job registry (`Create`, `Get`, `SetStatus`,
  `ListActiveTasks`, `HasActiveTask`); the Go `map[string]*AsyncTask` becomes an
  association list keyed by the lower-cased identifier, `time.Now()` becomes an
  explicit `now : Nat` argument.
* the scratch-space file (`resolvePath` and friends) — `filepath.Clean`,
  `filepath.Join`, `filepath.IsAbs` (Unix separator), `strings.Contains` and
  `strings.HasPrefix` are modelled over character lists.
* the executor file (`executeCommand`) — the parsed `text/template` body becomes
  a list of nodes (literal text / `.name` field references); the operating
  system behaviour of `cmd.CombinedOutput()` under `exec.CommandContext` is a
  parameter `osRun` producing the captured output, the Go error value, and
  whether the context deadline was exceeded.  The wall-clock duration return
  value is not modelled.
* `main.go` — `getResourceContent` and the admission-control part of
  `handleAsyncTask` (the spawned goroutine body is the `SetStatus` sequence
  proved about separately; the displayed `FormatStatus` text is not modelled).

`PrepareSlot`, `Delete` and the capacity argument of `NewTaskStore` are
exercised by `task_store_test.go` but their implementation is not among the
provided sources; they are modelled from the specification (section 4.1) and
marked as such.
-/

namespace SimpleMCP

/-- Models Go `strings.ToLower` character-wise on the basic latin range, which
is exact for the ASCII identifiers (UUIDs) used as task ids. -/
def goToLower (s : String) : String :=
  String.mk (s.data.map Char.toLower)

/-- AsyncTask from `task_store.go`: the state of a single background job.
`time.Time` fields are model instants (`Nat`); the Go zero time is `0`. -/
structure AsyncTask where
  ID : String
  ToolName : String
  Status : String
  Message : String
  StartTime : Nat
  EndTime : Nat
deriving DecidableEq

/-- TaskStore from `task_store.go`: the registry of async tasks.  The Go map
is an association list keyed by the lower-cased id.  `maxTasks` is the
capacity bound taken by `NewTaskStore` in `task_store_test.go` (the bounded
variant of spec section 4.1); the operations from `task_store.go` ignore it. -/
structure TaskStore where
  tasks : List (String × AsyncTask)
  maxTasks : Nat
deriving DecidableEq

def NewTaskStore (maxTasks : Nat) : TaskStore :=
  { tasks := [], maxTasks := maxTasks }

/-- Insertion into the modelled Go map: replaces any entry under the same key. -/
def mapInsert (m : List (String × AsyncTask)) (k : String) (v : AsyncTask) :
    List (String × AsyncTask) :=
  (k, v) :: m.filter (fun p => p.1 != k)

/-- Create from `task_store.go`: initializes a new task in the pending state. -/
def TaskStore.Create (ts : TaskStore) (id toolName : String) (now : Nat) :
    TaskStore × AsyncTask :=
  let task : AsyncTask :=
    { ID := id, ToolName := toolName, Status := "pending",
      Message := "Job has been queued.", StartTime := now, EndTime := 0 }
  ({ ts with tasks := mapInsert ts.tasks (goToLower id) task }, task)

/-- Get from `task_store.go`: case-insensitive lookup. -/
def TaskStore.Get (ts : TaskStore) (id : String) : Option AsyncTask :=
  ts.tasks.lookup (goToLower id)

/-- Status update applied to one task by `SetStatus`. -/
def setTask (t : AsyncTask) (status message : String) (now : Nat) : AsyncTask :=
  { t with Status := status, Message := message,
           EndTime := if status = "completed" ∨ status = "failed" then now else t.EndTime }

/-- SetStatus from `task_store.go`: updates the state and output message of a
task; a no-op when the id is unknown; stamps `EndTime` on a terminal status. -/
def TaskStore.SetStatus (ts : TaskStore) (id status message : String) (now : Nat) :
    TaskStore :=
  { ts with tasks := ts.tasks.map (fun p =>
      if p.1 == goToLower id then (p.1, setTask p.2 status message now) else p) }

def isActive (s : String) : Bool :=
  s == "pending" || s == "running"

def isTerminal (s : String) : Bool :=
  s == "completed" || s == "failed"

/-- ListActiveTasks from `task_store.go`. -/
def TaskStore.ListActiveTasks (ts : TaskStore) : List AsyncTask :=
  (ts.tasks.filter (fun p => isActive p.2.Status)).map (fun p => p.2)

/-- HasActiveTask from `task_store.go`: whether a tool type is already
pending or running. -/
def TaskStore.HasActiveTask (ts : TaskStore) (toolName : String) : Bool :=
  ts.tasks.any (fun p => p.2.ToolName == toolName && isActive p.2.Status)

/-- Modelled from the spec: `Delete` is called by `task_store_test.go` but its
implementation is not among the provided sources.  Spec section 4.1: removes a
record outright, silently a no-op on an unknown id. -/
def TaskStore.Delete (ts : TaskStore) (id : String) : TaskStore :=
  { ts with tasks := ts.tasks.filter (fun p => p.1 != goToLower id) }

/-- Among the entries, the terminal (completed/failed) task with the least
`EndTime`; earlier entries win ties. -/
def oldestTerminal : List (String × AsyncTask) → Option AsyncTask
  | [] => none
  | (_, t) :: rest =>
    match oldestTerminal rest with
    | none => if isTerminal t.Status then some t else none
    | some u =>
      if isTerminal t.Status then
        (if t.EndTime ≤ u.EndTime then some t else some u)
      else some u

/-- Modelled from the spec: `PrepareSlot` is called by `task_store_test.go` but
its implementation is not among the provided sources.  Spec section 4.1: below
capacity it is a no-op; at capacity it selects the oldest-by-`EndTime`
terminal record and signals it as evictable; with no terminal record it fails
with a capacity error. -/
def TaskStore.PrepareSlot (ts : TaskStore) : Except String String :=
  if ts.tasks.length < ts.maxTasks then Except.ok ""
  else
    match oldestTerminal ts.tasks with
    | some t => Except.ok t.ID
    | none => Except.error "task store is at capacity and all tasks are still active"

/-- Status of the record stored under `id`, if any. -/
def statusOf (ts : TaskStore) (id : String) : Option String :=
  (ts.Get id).map (fun t => t.Status)

/-- One node of a parsed `text/template` command template: literal text or a
field reference `.name` written in the source between double braces. -/
inductive TplNode where
  | lit : String → TplNode
  | param : String → TplNode
deriving DecidableEq

/-- ContextItem from the configuration: a declared tool.  `Command` is the
parsed form of the Go template string. -/
structure ContextItem where
  Name : String
  Command : List TplNode
  Parameters : List String
  TimeoutSeconds : Int
  Async : Bool

/-- ResourceItem from the configuration: a declared resource. -/
structure ResourceItem where
  URI : String
  Description : String
  Content : String
  Command : List TplNode

/-- The `templateData` map built by `executeCommand`: each parameter name is
bound to the environment-variable reference `$_MCP_VAR_<name>`, never to the
caller-supplied value. -/
def templateData (params : List (String × String)) : List (String × String) :=
  params.map (fun p => (p.1, "$_MCP_VAR_" ++ p.1))

/-- Rendering of one template node against a data map; Go `text/template`
renders a missing map key as `<no value>`. -/
def renderNode (data : List (String × String)) : TplNode → String
  | TplNode.lit s => s
  | TplNode.param n =>
    match data.lookup n with
    | some v => v
    | none => "<no value>"

/-- Rendering of a whole template (`tmpl.Execute` writing into a buffer). -/
def renderTemplate (nodes : List TplNode) (data : List (String × String)) : String :=
  nodes.foldl (fun acc nd => acc ++ renderNode data nd) ""

/-- The final command string `executeCommand` passes to `sh -c`. -/
def finalCommand (nodes : List TplNode) (params : List (String × String)) : String :=
  renderTemplate nodes (templateData params)

/-- The Go error value delivered by `cmd.CombinedOutput()`: an
`*exec.ExitError` carrying the subprocess exit code, or any other error
(spawn failure, kill by context), carrying its text. -/
inductive GoExecErr where
  | exitError : Int → GoExecErr
  | otherError : String → GoExecErr
deriving DecidableEq

/-- Error text of a Go exec error (`%v` formatting). -/
def goErrText : GoExecErr → String
  | GoExecErr.exitError c => "exit status " ++ toString c
  | GoExecErr.otherError s => s

/-- Outcome of running the subprocess: captured combined output, the error
from `CombinedOutput`, and whether `ctx.Err() == context.DeadlineExceeded`. -/
structure OSExec where
  output : String
  err : Option GoExecErr
  ctxDeadlineExceeded : Bool
deriving DecidableEq

/-- Errors produced by `executeCommand`. -/
inductive CmdError where
  | invalidTemplate : String → CmdError
  | renderFailure : String → CmdError
  | timedOut : Int → CmdError
  | commandFailed : String → CmdError
deriving DecidableEq

/-- Error text, mirroring the `fmt.Errorf` formats in the executor. -/
def cmdErrorMessage : CmdError → String
  | CmdError.invalidTemplate s => "invalid command template in config: " ++ s
  | CmdError.renderFailure s => "failed to build command from template: " ++ s
  | CmdError.timedOut n => "command timed out after " ++ toString n ++ " seconds"
  | CmdError.commandFailed s => "command failed: " ++ s

/-- The timeout `executeCommand` enforces: `item.TimeoutSeconds`, defaulting
to 30 when unset or non-positive. -/
def effectiveTimeout (timeoutSeconds : Int) : Int :=
  if timeoutSeconds ≤ 0 then 30 else timeoutSeconds

/-- Result triple of `executeCommand` (the duration is not modelled). -/
structure ExecResult where
  output : String
  exitCode : Int
  error : Option CmdError
deriving DecidableEq

/-- The tail of `executeCommand` after `cmd.CombinedOutput()` returns: exit
code extraction, the context-deadline check (which returns an empty output
string, -1 and a timed-out error), and the error wrapping. -/
def finalizeExec (timeout : Int) (os : OSExec) : ExecResult :=
  let exitCode : Int :=
    match os.err with
    | none => 0
    | some (GoExecErr.exitError c) => c
    | some (GoExecErr.otherError _) => -1
  if os.ctxDeadlineExceeded then
    { output := "", exitCode := -1, error := some (CmdError.timedOut timeout) }
  else
    match os.err with
    | some e =>
      { output := os.output, exitCode := exitCode,
        error := some (CmdError.commandFailed (goErrText e)) }
    | none => { output := os.output, exitCode := exitCode, error := none }

/-- executeCommand from the executor file: renders the command template with
the parameters bound through `$_MCP_VAR_<name>` environment variables and runs
it via `sh -c` under the effective timeout.  `osRun` abstracts the operating
system: it yields the `CombinedOutput` outcome for the final command string
and the timeout it was run under. -/
def executeCommand (item : ContextItem) (params : List (String × String))
    (osRun : String → Int → OSExec) : ExecResult :=
  let finalCmd := finalCommand item.Command params
  let timeout := effectiveTimeout item.TimeoutSeconds
  finalizeExec timeout (osRun finalCmd timeout)

/-- Result of a tool handler (`mcp.NewToolResultText` / `...Error` /
`...Resource`; the displayed status text of the resource is not modelled). -/
inductive ToolResult where
  | text : String → ToolResult
  | error : String → ToolResult
  | resource : String → ToolResult
deriving DecidableEq

/-- handleAsyncTask from `main.go`, up to spawning the goroutine: admission
control against `HasActiveTask`, the server-from-context check, then `Create`.
Returns the tool result together with the (possibly updated) task store. -/
def handleAsyncTask (ts : TaskStore) (item : ContextItem) (srvOk : Bool)
    (jobID : String) (now : Nat) : ToolResult × TaskStore :=
  if ts.HasActiveTask item.Name then
    (ToolResult.error ("Task \x27" ++ item.Name ++
      "\x27 is already in progress. Call \x27ListPendingTasks\x27 or \x27TaskStatus\x27 to monitor it."), ts)
  else if !srvOk then
    (ToolResult.error "could not get server from context", ts)
  else
    let created := ts.Create jobID item.Name now
    (ToolResult.resource ("simple-mcp://tasks/" ++ jobID), created.1)

/-- getResourceContent from `main.go`: static content first, then command
output; a command execution error is appended to the content instead of being
propagated, and the returned error is always `none`. -/
def getResourceContent (item : ResourceItem) (osRun : String → Int → OSExec) :
    String × Option String :=
  let static := if item.Content ≠ "" then item.Content else ""
  if item.Command ≠ [] then
    let r := executeCommand
      { Name := "", Command := item.Command, Parameters := [],
        TimeoutSeconds := 0, Async := false } [] osRun
    let output :=
      match r.error with
      | some e =>
        "\nError executing command: " ++ cmdErrorMessage e ++ ". Output: " ++ r.output
      | none => r.output
    (static ++ output, none)
  else (static, none)

/-- Go `strings.Split` on a single character, over character lists. -/
def splitOnChar (c : Char) : List Char → List (List Char)
  | [] => [[]]
  | x :: xs =>
    match splitOnChar c xs with
    | [] => [[x]]
    | s :: rest => if x == c then [] :: s :: rest else (x :: s) :: rest

/-- Core of Go `filepath.Clean` (Unix): processes the path elements left to
right over a backward accumulator; empty and `.` elements are dropped, `..`
pops a poppable element, is dropped at the root of a rooted path, and is kept
at the head of an unrooted path. -/
def cleanSegs (rooted : Bool) : List (List Char) → List (List Char) → List (List Char)
  | acc, [] => acc.reverse
  | acc, seg :: rest =>
    if seg = [] || seg = ['.'] then cleanSegs rooted acc rest
    else if seg = ['.', '.'] then
      match acc with
      | [] =>
        if rooted then cleanSegs rooted [] rest
        else cleanSegs rooted [['.', '.']] rest
      | top :: acc2 =>
        if top = ['.', '.'] then cleanSegs rooted (seg :: acc) rest
        else cleanSegs rooted acc2 rest
    else cleanSegs rooted (seg :: acc) rest

/-- Go `filepath.Clean` for Unix paths. -/
def goClean (p : String) : String :=
  match p.data with
  | [] => "."
  | c :: cs =>
    let rooted := c == '/'
    let segs := cleanSegs rooted [] (splitOnChar '/' (c :: cs))
    if rooted then String.mk ('/' :: List.intercalate ['/'] segs)
    else
      match segs with
      | [] => "."
      | _ => String.mk (List.intercalate ['/'] segs)

/-- Go `filepath.IsAbs` for Unix paths. -/
def goIsAbs (p : String) : Bool :=
  match p.data with
  | [] => false
  | c :: _ => c == '/'

/-- Substring test over character lists (Go `strings.Contains`). -/
def containsSub (sub : List Char) : List Char → Bool
  | [] => sub.isPrefixOf ([] : List Char)
  | x :: xs => sub.isPrefixOf (x :: xs) || containsSub sub xs

/-- Go `strings.Contains`. -/
def strContains (s sub : String) : Bool :=
  containsSub sub.data s.data

/-- Go `strings.HasPrefix`. -/
def strStartsWith (s pre : String) : Bool :=
  pre.data.isPrefixOf s.data

/-- Go `filepath.Join` of two elements: non-empty elements joined with the
separator, then cleaned; all-empty input stays empty. -/
def goJoin (a b : String) : String :=
  match a.data, b.data with
  | [], [] => ""
  | [], _ => goClean b
  | _, [] => goClean a
  | _, _ => goClean (String.mk (a.data ++ '/' :: b.data))

/-- resolvePath from the scratch-space file: rejects absolute paths, cleaned
paths containing `..` as a substring, and joins whose textual prefix is not
the base directory. -/
def resolvePath (base path : String) : Except String String :=
  if goIsAbs path then Except.error "absolute paths are not allowed"
  else
    let cleanedPath := goClean path
    if strContains cleanedPath ".." then
      Except.error "path must not contain \x27..\x27"
    else
      let fullPath := goJoin base cleanedPath
      if !(strStartsWith fullPath base) then
        Except.error "path escapes the scratch directory"
      else Except.ok fullPath

/-- Whether an `Except` result is a success. -/
def isOkB : Except String String → Bool
  | Except.ok _ => true
  | Except.error _ => false

/-- Whether a path has a parent-directory segment: a whole `..` element.
Built from the words of claim C3 (for the comparison with the implemented
substring test), not from the source. -/
def hasParentSegment (p : String) : Bool :=
  (splitOnChar '/' p.data).any (fun seg => seg == ['.', '.'])

/-- Failure condition asserted by claim C3, assembled from the words of the
specification: absolute input, or a parent-directory segment remaining in the
cleaned path, or a join whose textual prefix is not the base. -/
def claimedFailCond (base path : String) : Bool :=
  goIsAbs path || hasParentSegment (goClean path) ||
    !(strStartsWith (goJoin base (goClean path)) base)

/-- Single-character case variants: equal, or related by the latin
lower/upper case maps. -/
def charCaseVariant (a b : Char) : Bool :=
  b == a || b == Char.toLower a || b == Char.toUpper a

/-- Character-wise case-variant test on character lists. -/
def listCaseVariant : List Char → List Char → Bool
  | [], [] => true
  | a :: as, b :: bs => charCaseVariant a b && listCaseVariant as bs
  | _, _ => false

/-- A string is a case variant of another when they agree character by
character up to letter case (e.g. fully upper- or lower-cased). -/
def caseVariant (s v : String) : Bool :=
  listCaseVariant s.data v.data

end SimpleMCP

namespace SimpleMCP

/-- Round trip of `Char.ofNat` on code points below the surrogate range. -/
theorem toNat_ofNat_valid (n : Nat) (h : n < 55296) : (Char.ofNat n).toNat = n := by
  have hv : n.isValidChar := Or.inl h
  rw [Char.ofNat, dif_pos hv]
  simp [Char.ofNatAux, Char.toNat, UInt32.toNat, BitVec.toNat_ofNatLt]

/-- Lower-casing is idempotent. -/
theorem toLower_toLower (a : Char) : Char.toLower (Char.toLower a) = Char.toLower a := by
  unfold Char.toLower
  by_cases h : a.toNat ≥ 65 ∧ a.toNat ≤ 90
  · rw [if_pos h]
    have hn : (Char.ofNat (a.toNat + 32)).toNat = a.toNat + 32 :=
      toNat_ofNat_valid _ (by omega)
    rw [if_neg (by rw [hn]; omega)]
  · rw [if_neg h, if_neg h]

/-- Lower-casing absorbs upper-casing. -/
theorem toLower_toUpper (a : Char) : Char.toLower (Char.toUpper a) = Char.toLower a := by
  unfold Char.toLower Char.toUpper
  by_cases h : a.toNat ≥ 97 ∧ a.toNat ≤ 122
  · rw [if_pos h]
    have hn : (Char.ofNat (a.toNat - 32)).toNat = a.toNat - 32 :=
      toNat_ofNat_valid _ (by omega)
    rw [if_pos (by rw [hn]; omega), if_neg (by omega), hn]
    have h2 : a.toNat - 32 + 32 = a.toNat := by omega
    rw [h2, Char.ofNat_toNat]
  · rw [if_neg h]

/-- Case variants lower-case identically. -/
theorem charCaseVariant_toLower (a b : Char) (h : charCaseVariant a b = true) :
    Char.toLower b = Char.toLower a := by
  unfold charCaseVariant at h
  simp only [Bool.or_eq_true, beq_iff_eq] at h
  rcases h with (h | h) | h
  · rw [h]
  · rw [h, toLower_toLower]
  · rw [h, toLower_toUpper]

/-- Character lists that are case variants lower-case identically. -/
theorem listCaseVariant_toLower (as bs : List Char) (h : listCaseVariant as bs = true) :
    bs.map Char.toLower = as.map Char.toLower := by
  induction as generalizing bs with
  | nil =>
    cases bs with
    | nil => rfl
    | cons b bs2 => exact absurd h (by simp [listCaseVariant])
  | cons a as2 ih =>
    cases bs with
    | nil => exact absurd h (by simp [listCaseVariant])
    | cons b bs2 =>
      simp only [listCaseVariant, Bool.and_eq_true] at h
      simp only [List.map_cons, charCaseVariant_toLower a b h.1, ih bs2 h.2]

/-- Strings that are case variants lower-case identically. -/
theorem caseVariant_goToLower (s v : String) (h : caseVariant s v = true) :
    goToLower v = goToLower s := by
  unfold goToLower
  rw [listCaseVariant_toLower s.data v.data h]

/-- Looking up a key right after inserting it. -/
theorem lookup_mapInsert_self (m : List (String × AsyncTask)) (k : String)
    (v : AsyncTask) : (mapInsert m k v).lookup k = some v := by
  simp [mapInsert, List.lookup]

/-- Get finds the record just created under the same identifier. -/
theorem Get_Create_self (ts : TaskStore) (id tool : String) (now : Nat) :
    ((ts.Create id tool now).1).Get id = some ((ts.Create id tool now).2) := by
  simp [TaskStore.Create, TaskStore.Get, lookup_mapInsert_self]

/-- C7: for every identifier stored by Create, Get on the identifier and Get
on any case variant of it (e.g. fully upper- or lower-cased) return the same
record; Get is invariant under changes of letter case in its argument. -/
theorem Get_case_insensitive (ts : TaskStore) (id v : String)
    (h : caseVariant id v = true) :
    ts.Get v = ts.Get id
    ∧ ∀ tool now, ((ts.Create id tool now).1).Get v = some ((ts.Create id tool now).2) := by
  have hlow : goToLower v = goToLower id := caseVariant_goToLower id v h
  constructor
  · unfold TaskStore.Get
    rw [hlow]
  · intro tool now
    unfold TaskStore.Get
    rw [hlow]
    exact Get_Create_self ts id tool now

/-- Witness for C7 at a concrete store and identifier pair. -/
theorem Get_case_insensitive_w :
    caseVariant "job-123" "JOB-123" = true
    ∧ (((NewTaskStore 10).Create "job-123" "SystemUpgrade" 0).1).Get "JOB-123"
        = some (((NewTaskStore 10).Create "job-123" "SystemUpgrade" 0).2) :=
  ⟨by decide,
   (Get_case_insensitive (NewTaskStore 10) "job-123" "JOB-123" (by decide)).2
     "SystemUpgrade" 0⟩

/-- The template data binds every parameter name to its environment-variable
reference, independently of the caller-supplied value. -/
theorem templateData_lookup (p : List (String × String)) (k : String) :
    (templateData p).lookup k = (p.lookup k).map (fun _ => "$_MCP_VAR_" ++ k) := by
  induction p with
  | nil => rfl
  | cons hd tl ih =>
    simp only [templateData, List.map_cons, List.lookup]
    cases h : k == hd.1 with
    | true =>
      have : hd.1 = k := by
        have := (beq_iff_eq (a := k) (b := hd.1)).mp h
        exact this.symm
      simp [this]
    | false => simpa [templateData] using ih

/-- Rendering only depends on the data map through the rendered nodes. -/
theorem renderTemplate_congr (nodes : List TplNode) (d1 d2 : List (String × String))
    (h : ∀ nd, renderNode d1 nd = renderNode d2 nd) :
    renderTemplate nodes d1 = renderTemplate nodes d2 := by
  unfold renderTemplate
  suffices h2 : ∀ acc : String,
      nodes.foldl (fun acc nd => acc ++ renderNode d1 nd) acc
        = nodes.foldl (fun acc nd => acc ++ renderNode d2 nd) acc from h2 ""
  induction nodes with
  | nil => intro acc; rfl
  | cons hd tl ih =>
    intro acc
    simp only [List.foldl]
    rw [h hd]
    exact ih _

/-- C1: for every command template and any two parameter sets binding the same
set of parameter names, executeCommand renders the same final command string
for `sh -c`; each bound parameter is substituted as the environment-variable
reference `$_MCP_VAR_<name>`, never as the caller-supplied value, and in
particular the value `; touch /tmp/x` bound into the template
`echo` followed by a `.v` reference renders as `echo $_MCP_VAR_v`. -/
theorem executeCommand_param_values_inert (nodes : List TplNode)
    (p1 p2 : List (String × String))
    (hkeys : ∀ k, (p1.lookup k).isSome = (p2.lookup k).isSome) :
    finalCommand nodes p1 = finalCommand nodes p2
    ∧ (∀ k v, p1.lookup k = some v →
        renderNode (templateData p1) (TplNode.param k) = "$_MCP_VAR_" ++ k)
    ∧ finalCommand [TplNode.lit "echo ", TplNode.param "v"] [("v", "; touch /tmp/x")]
        = "echo $_MCP_VAR_v" := by
  refine ⟨?_, ?_, by decide⟩
  · apply renderTemplate_congr
    intro nd
    cases nd with
    | lit s => rfl
    | param n =>
      simp only [renderNode, templateData_lookup]
      have hn := hkeys n
      cases h1 : p1.lookup n with
      | none =>
        cases h2 : p2.lookup n with
        | none => rfl
        | some v => rw [h1, h2] at hn; simp at hn
      | some v =>
        cases h2 : p2.lookup n with
        | none => rw [h1, h2] at hn; simp at hn
        | some w => rfl
  · intro k v hv
    simp [renderNode, templateData_lookup, hv]

/-- Witness for C1: two different values bound to the same parameter name
render to the same final command string. -/
theorem executeCommand_param_values_inert_w :
    finalCommand [TplNode.lit "echo ", TplNode.param "v"] [("v", "alpha")]
      = finalCommand [TplNode.lit "echo ", TplNode.param "v"] [("v", "; touch /tmp/x")] :=
  (executeCommand_param_values_inert [TplNode.lit "echo ", TplNode.param "v"]
    [("v", "alpha")] [("v", "; touch /tmp/x")]
    (by
      intro k
      simp only [List.lookup]
      cases k == "v" <;> rfl)).1

end SimpleMCP

namespace SimpleMCP

/-- SetStatus rewrites the record stored under the same identifier and
nothing else about that lookup. -/
theorem lookup_setStatus (l : List (String × AsyncTask)) (key status message : String)
    (now : Nat) :
    (l.map (fun p => if p.1 == key then (p.1, setTask p.2 status message now) else p)).lookup key
      = (l.lookup key).map (fun t => setTask t status message now) := by
  induction l with
  | nil => rfl
  | cons hd tl ih =>
    obtain ⟨k, v⟩ := hd
    simp only [List.map_cons]
    cases h : k == key with
    | true =>
      have hk : k = key := beq_iff_eq.mp h
      subst hk
      simp [List.lookup]
    | false =>
      have hne : k ≠ key := beq_eq_false_iff_ne.mp h
      have hb : (key == k) = false := beq_eq_false_iff_ne.mpr (fun he => hne he.symm)
      rw [if_neg (by simp [h])]
      simp only [List.lookup, hb]
      exact ih

/-- Get after SetStatus on the same identifier. -/
theorem Get_SetStatus_self (ts : TaskStore) (id status message : String) (now : Nat) :
    (ts.SetStatus id status message now).Get id
      = (ts.Get id).map (fun t => setTask t status message now) := by
  unfold TaskStore.SetStatus TaskStore.Get
  exact lookup_setStatus ts.tasks (goToLower id) status message now

/-- C6 counterexample: SetStatus performs no validation, so a sequence of
Create and SetStatus operations can move a record out of a terminal state —
here a record set to completed is afterwards set back to running. -/
theorem setStatus_terminal_escape_cex :
    statusOf ((((NewTaskStore 10).Create "a" "T" 0).1).SetStatus "a" "completed" "done" 1) "a"
      = some "completed"
    ∧ statusOf (((((NewTaskStore 10).Create "a" "T" 0).1).SetStatus "a" "completed" "done" 1).SetStatus "a" "running" "again" 2) "a" = some "running"
    ∧ isTerminal "completed" = true ∧ isActive "running" = true := by
  constructor
  · rfl
  · exact ⟨rfl, rfl, rfl⟩

/-- C6 amended: along the operation sequence the orchestrator actually issues
for a job (Create, then SetStatus running, then one terminal SetStatus) the
status moves forward through pending, running, terminal; SetStatus itself
enforces nothing (see the counterexample). -/
theorem asyncTask_status_forward (ts : TaskStore) (id tool m1 m2 term : String)
    (t0 t1 t2 : Nat) (hterm : term = "completed" ∨ term = "failed") :
    statusOf ((ts.Create id tool t0).1) id = some "pending"
    ∧ statusOf (((ts.Create id tool t0).1).SetStatus id "running" m1 t1) id = some "running"
    ∧ statusOf ((((ts.Create id tool t0).1).SetStatus id "running" m1 t1).SetStatus id term m2 t2) id
        = some term
    ∧ isTerminal term = true := by
  have h0 := Get_Create_self ts id tool t0
  refine ⟨?_, ?_, ?_, ?_⟩
  · unfold statusOf
    rw [h0]
    rfl
  · unfold statusOf
    rw [Get_SetStatus_self, h0]
    rfl
  · unfold statusOf
    rw [Get_SetStatus_self, Get_SetStatus_self, h0]
    rfl
  · rcases hterm with h | h <;> rw [h] <;> rfl

/-- Witness for C6 (amended) at a concrete trace ending in completed. -/
theorem asyncTask_status_forward_w :
    statusOf (((((NewTaskStore 5).Create "b" "U" 0).1).SetStatus "b" "running" "m" 1).SetStatus
      "b" "completed" "out" 2) "b" = some "completed" :=
  (asyncTask_status_forward (NewTaskStore 5) "b" "U" "m" "out" "completed" 0 1 2
    (Or.inl rfl)).2.2.1

end SimpleMCP

namespace SimpleMCP

/-- Terminal statuses are not active. -/
theorem isTerminal_not_isActive (s : String) (h : isTerminal s = true) :
    isActive s = false := by
  unfold isTerminal at h
  simp only [Bool.or_eq_true, beq_iff_eq] at h
  rcases h with h | h <;> rw [h] <;> rfl

/-- C8: HasActiveTask is true exactly when some record with that tool name is
pending or running; in particular a store whose records of that tool name are
all terminal reports false. -/
theorem HasActiveTask_iff_active_record (ts : TaskStore) (toolName : String) :
    (ts.HasActiveTask toolName = true ↔
      ∃ p ∈ ts.tasks, p.2.ToolName = toolName ∧
        (p.2.Status = "pending" ∨ p.2.Status = "running"))
    ∧ ((∀ p ∈ ts.tasks, p.2.ToolName = toolName → isTerminal p.2.Status = true) →
        ts.HasActiveTask toolName = false) := by
  have hiff : ts.HasActiveTask toolName = true ↔
      ∃ p ∈ ts.tasks, p.2.ToolName = toolName ∧
        (p.2.Status = "pending" ∨ p.2.Status = "running") := by
    unfold TaskStore.HasActiveTask isActive
    rw [List.any_eq_true]
    constructor
    · rintro ⟨p, hp, hcond⟩
      simp only [Bool.and_eq_true, Bool.or_eq_true, beq_iff_eq] at hcond
      exact ⟨p, hp, hcond.1, hcond.2⟩
    · rintro ⟨p, hp, hname, hstat⟩
      refine ⟨p, hp, ?_⟩
      simp only [Bool.and_eq_true, Bool.or_eq_true, beq_iff_eq]
      exact ⟨hname, hstat⟩
  refine ⟨hiff, ?_⟩
  intro hall
  cases hb : ts.HasActiveTask toolName with
  | false => rfl
  | true =>
    obtain ⟨p, hp, hname, hstat⟩ := hiff.mp hb
    have hterm := hall p hp hname
    have hact : isActive p.2.Status = true := by
      unfold isActive
      simp only [Bool.or_eq_true, beq_iff_eq]
      exact hstat
    rw [isTerminal_not_isActive _ hterm] at hact
    exact absurd hact (by simp)

/-- Witness for C8: a store whose single record of the tool name is terminal
reports no active task. -/
theorem HasActiveTask_iff_active_record_w :
    TaskStore.HasActiveTask
        ⟨[("1", ⟨"1", "Upgrade", "completed", "done", 0, 1⟩)], 10⟩ "Upgrade" = false :=
  (HasActiveTask_iff_active_record
    ⟨[("1", ⟨"1", "Upgrade", "completed", "done", 0, 1⟩)], 10⟩ "Upgrade").2 (by decide)

/-- C9: an async invocation whose tool name already has a pending or running
job is rejected with an error result telling the caller to poll, and the task
registry is returned unchanged: no record is created. -/
theorem handleAsyncTask_rejects_active (ts : TaskStore) (item : ContextItem)
    (srvOk : Bool) (jobID : String) (now : Nat)
    (h : ts.HasActiveTask item.Name = true) :
    handleAsyncTask ts item srvOk jobID now =
      (ToolResult.error ("Task \x27" ++ item.Name ++
        "\x27 is already in progress. Call \x27ListPendingTasks\x27 or \x27TaskStatus\x27 to monitor it."), ts)
    ∧ (handleAsyncTask ts item srvOk jobID now).2 = ts := by
  have heq : handleAsyncTask ts item srvOk jobID now =
      (ToolResult.error ("Task \x27" ++ item.Name ++
        "\x27 is already in progress. Call \x27ListPendingTasks\x27 or \x27TaskStatus\x27 to monitor it."), ts) := by
    unfold handleAsyncTask
    rw [if_pos h]
  exact ⟨heq, by rw [heq]⟩

/-- Witness for C9: a store with a running Upgrade job rejects a second
Upgrade invocation and is unchanged. -/
theorem handleAsyncTask_rejects_active_w :
    (handleAsyncTask ⟨[("1", ⟨"1", "Upgrade", "running", "working", 0, 0⟩)], 10⟩
        ⟨"Upgrade", [], [], 0, true⟩ true "new-id" 5).2
      = ⟨[("1", ⟨"1", "Upgrade", "running", "working", 0, 0⟩)], 10⟩ :=
  (handleAsyncTask_rejects_active ⟨[("1", ⟨"1", "Upgrade", "running", "working", 0, 0⟩)], 10⟩
    ⟨"Upgrade", [], [], 0, true⟩ true "new-id" 5 (by decide)).2

end SimpleMCP

namespace SimpleMCP

/-- C4: when execution exceeds the effective timeout (TimeoutSeconds,
defaulting to 30 when unset or non-positive), executeCommand returns the
timed-out error with sentinel exit code -1; a command that merely exits with
a non-zero code yields that code and the distinct command-failed error. -/
theorem executeCommand_timeout_spec (item : ContextItem)
    (params : List (String × String)) (osRun : String → Int → OSExec)
    (htmo : (osRun (finalCommand item.Command params)
        (effectiveTimeout item.TimeoutSeconds)).ctxDeadlineExceeded = true) :
    executeCommand item params osRun =
      { output := "", exitCode := -1,
        error := some (CmdError.timedOut (effectiveTimeout item.TimeoutSeconds)) }
    ∧ (item.TimeoutSeconds ≤ 0 → effectiveTimeout item.TimeoutSeconds = 30)
    ∧ (∀ out c t, finalizeExec t
          { output := out, err := some (GoExecErr.exitError c), ctxDeadlineExceeded := false }
        = { output := out, exitCode := c,
            error := some (CmdError.commandFailed ("exit status " ++ toString c)) })
    ∧ (∀ n s, CmdError.timedOut n ≠ CmdError.commandFailed s)
    ∧ cmdErrorMessage (CmdError.timedOut (effectiveTimeout item.TimeoutSeconds))
        = "command timed out after " ++ toString (effectiveTimeout item.TimeoutSeconds)
          ++ " seconds" := by
  refine ⟨?_, ?_, ?_, ?_, rfl⟩
  · simp [executeCommand, finalizeExec, htmo]
  · intro hle
    unfold effectiveTimeout
    rw [if_pos hle]
  · intro out c t
    rfl
  · intro n s hne
    exact CmdError.noConfusion hne

/-- Witness for C4: a concrete run whose deadline was exceeded. -/
theorem executeCommand_timeout_spec_w :
    executeCommand
        { Name := "Sleepy", Command := [TplNode.lit "sleep 2"], Parameters := [],
          TimeoutSeconds := 1, Async := true } []
        (fun _ _ => { output := "", err := some (GoExecErr.exitError (-1)),
                      ctxDeadlineExceeded := true })
      = { output := "", exitCode := -1, error := some (CmdError.timedOut 1) } :=
  (executeCommand_timeout_spec
    { Name := "Sleepy", Command := [TplNode.lit "sleep 2"], Parameters := [],
      TimeoutSeconds := 1, Async := true } []
    (fun _ _ => { output := "", err := some (GoExecErr.exitError (-1)),
                  ctxDeadlineExceeded := true }) rfl).1

/-- C5 counterexample: a timed-out execution whose subprocess produced output
returns the empty output string with the timeout error — the captured output
is discarded, not returned alongside the error as the claim states. -/
theorem executeCommand_timeout_output_cex :
    (executeCommand
        { Name := "Sleepy", Command := [TplNode.lit "sleep 2"], Parameters := [],
          TimeoutSeconds := 1, Async := true } []
        (fun _ _ => { output := "partial output", err := some (GoExecErr.exitError (-1)),
                      ctxDeadlineExceeded := true })).output = ""
    ∧ ("" : String) ≠ "partial output" := by
  exact ⟨rfl, by decide⟩

/-- C5 amended: for non-timeout execution errors (non-zero exit, spawn
failure) the captured output is returned alongside the error; on a timeout
the returned output string is empty, whatever the subprocess produced. -/
theorem executeCommand_failure_output_spec (item : ContextItem)
    (params : List (String × String)) (osRun : String → Int → OSExec) :
    ((osRun (finalCommand item.Command params)
        (effectiveTimeout item.TimeoutSeconds)).ctxDeadlineExceeded = false →
      (executeCommand item params osRun).output =
        (osRun (finalCommand item.Command params)
          (effectiveTimeout item.TimeoutSeconds)).output)
    ∧ ((osRun (finalCommand item.Command params)
        (effectiveTimeout item.TimeoutSeconds)).ctxDeadlineExceeded = true →
      (executeCommand item params osRun).output = "") := by
  constructor
  · intro hfalse
    simp only [executeCommand, finalizeExec, hfalse, Bool.false_eq_true, if_false]
    cases herr : (osRun (finalCommand item.Command params)
        (effectiveTimeout item.TimeoutSeconds)).err <;> simp
  · intro htrue
    simp [executeCommand, finalizeExec, htrue]

/-- Witness for C5 (amended): a failed run with exit code 2 returns its
captured output alongside the error. -/
theorem executeCommand_failure_output_spec_w :
    (executeCommand
        { Name := "Fail", Command := [TplNode.lit "false"], Parameters := [],
          TimeoutSeconds := 0, Async := false } []
        (fun _ _ => { output := "diagnostic text", err := some (GoExecErr.exitError 2),
                      ctxDeadlineExceeded := false })).output = "diagnostic text" :=
  (executeCommand_failure_output_spec
    { Name := "Fail", Command := [TplNode.lit "false"], Parameters := [],
      TimeoutSeconds := 0, Async := false } []
    (fun _ _ => { output := "diagnostic text", err := some (GoExecErr.exitError 2),
                  ctxDeadlineExceeded := false })).1 rfl

/-- C10: getResourceContent never returns an error; when the command of the
resource fails, the error text and the captured output are appended to the
returned content string instead of being propagated. -/
theorem getResourceContent_never_errors (item : ResourceItem)
    (osRun : String → Int → OSExec) :
    (getResourceContent item osRun).2 = none
    ∧ (∀ e, item.Command ≠ [] →
        (executeCommand
          { Name := "", Command := item.Command, Parameters := [],
            TimeoutSeconds := 0, Async := false } [] osRun).error = some e →
        (getResourceContent item osRun).1 =
          (if item.Content ≠ "" then item.Content else "") ++
            ("\nError executing command: " ++ cmdErrorMessage e ++ ". Output: " ++
              (executeCommand
                { Name := "", Command := item.Command, Parameters := [],
                  TimeoutSeconds := 0, Async := false } [] osRun).output)) := by
  constructor
  · by_cases hc : item.Command = []
    · simp [getResourceContent, hc]
    · simp [getResourceContent, hc]
  · intro e hc herr
    simp [getResourceContent, hc, herr]

/-- Witness for C10: a resource whose command fails with exit code 1 gets the
error text and output appended to its static content, with no error result. -/
theorem getResourceContent_never_errors_w :
    (getResourceContent
        { URI := "u", Description := "d", Content := "static",
          Command := [TplNode.lit "false"] }
        (fun _ _ => { output := "captured", err := some (GoExecErr.exitError 1),
                      ctxDeadlineExceeded := false })).1
      = "static" ++ ("\nError executing command: " ++
          cmdErrorMessage (CmdError.commandFailed ("exit status " ++ toString (1 : Int)))
          ++ ". Output: " ++ "captured") :=
  ((getResourceContent_never_errors
    { URI := "u", Description := "d", Content := "static",
      Command := [TplNode.lit "false"] }
    (fun _ _ => { output := "captured", err := some (GoExecErr.exitError 1),
                  ctxDeadlineExceeded := false })).2
    (CmdError.commandFailed ("exit status " ++ toString (1 : Int))) (by decide) rfl)

end SimpleMCP

namespace SimpleMCP

/-- oldestTerminal finds nothing exactly when no entry is terminal. -/
theorem oldestTerminal_none_iff (l : List (String × AsyncTask)) :
    oldestTerminal l = none ↔ ∀ p ∈ l, isTerminal p.2.Status = false := by
  induction l with
  | nil => simp [oldestTerminal]
  | cons hd tl ih =>
    obtain ⟨k, t⟩ := hd
    cases h : oldestTerminal tl with
    | none =>
      simp only [oldestTerminal, h]
      by_cases hT : isTerminal t.Status = true
      · rw [if_pos hT]
        constructor
        · intro hco
          exact Option.noConfusion hco
        · intro hall
          have := hall (k, t) (List.mem_cons_self _ _)
          rw [hT] at this
          exact Bool.noConfusion this
      · have hTf : isTerminal t.Status = false := Bool.eq_false_iff.mpr hT
        rw [if_neg hT]
        constructor
        · intro _ p hp
          rcases List.mem_cons.mp hp with heq | hp2
          · rw [heq]
            simpa using hTf
          · exact ih.mp h p hp2
        · intro _
          rfl
    | some u =>
      simp only [oldestTerminal, h]
      constructor
      · intro hco
        exfalso
        by_cases hT : isTerminal t.Status = true
        · rw [if_pos hT] at hco
          by_cases hE : t.EndTime ≤ u.EndTime
          · rw [if_pos hE] at hco
            exact Option.noConfusion hco
          · rw [if_neg hE] at hco
            exact Option.noConfusion hco
        · rw [if_neg hT] at hco
          exact Option.noConfusion hco
      · intro hall
        exfalso
        have htl : ∀ p ∈ tl, isTerminal p.2.Status = false :=
          fun p hp => hall p (List.mem_cons_of_mem _ hp)
        have hnone := ih.mpr htl
        rw [h] at hnone
        exact Option.noConfusion hnone

/-- The task oldestTerminal returns is a terminal entry of the list with the
least end time among terminal entries. -/
theorem oldestTerminal_some_spec (l : List (String × AsyncTask)) (u : AsyncTask)
    (h : oldestTerminal l = some u) :
    (∃ p ∈ l, p.2 = u) ∧ isTerminal u.Status = true ∧
      ∀ q ∈ l, isTerminal q.2.Status = true → u.EndTime ≤ q.2.EndTime := by
  induction l generalizing u with
  | nil => exact Option.noConfusion h
  | cons hd tl ih =>
    obtain ⟨k, t⟩ := hd
    cases htl : oldestTerminal tl with
    | none =>
      simp only [oldestTerminal, htl] at h
      by_cases hT : isTerminal t.Status = true
      · rw [if_pos hT] at h
        have ht : t = u := Option.some.inj h
        subst ht
        refine ⟨⟨(k, t), List.mem_cons_self _ _, rfl⟩, hT, ?_⟩
        intro q hq hqT
        rcases List.mem_cons.mp hq with heq | hq2
        · rw [heq]
        · have := (oldestTerminal_none_iff tl).mp htl q hq2
          rw [this] at hqT
          exact Bool.noConfusion hqT
      · rw [if_neg hT] at h
        exact Option.noConfusion h
    | some w =>
      simp only [oldestTerminal, htl] at h
      obtain ⟨⟨p0, hp0, hp0e⟩, hwT, hwmin⟩ := ih w htl
      by_cases hT : isTerminal t.Status = true
      · rw [if_pos hT] at h
        by_cases hE : t.EndTime ≤ w.EndTime
        · rw [if_pos hE] at h
          have ht : t = u := Option.some.inj h
          subst ht
          refine ⟨⟨(k, t), List.mem_cons_self _ _, rfl⟩, hT, ?_⟩
          intro q hq hqT
          rcases List.mem_cons.mp hq with heq | hq2
          · rw [heq]
          · exact le_trans hE (hwmin q hq2 hqT)
        · rw [if_neg hE] at h
          have hw : w = u := Option.some.inj h
          subst hw
          refine ⟨⟨p0, List.mem_cons_of_mem _ hp0, hp0e⟩, hwT, ?_⟩
          intro q hq hqT
          rcases List.mem_cons.mp hq with heq | hq2
          · rw [heq]
            simp only []
            omega
          · exact hwmin q hq2 hqT
      · rw [if_neg hT] at h
        have hw : w = u := Option.some.inj h
        subst hw
        refine ⟨⟨p0, List.mem_cons_of_mem _ hp0, hp0e⟩, hwT, ?_⟩
        intro q hq hqT
        rcases List.mem_cons.mp hq with heq | hq2
        · rw [heq] at hqT
          exact absurd hqT hT
        · exact hwmin q hq2 hqT

/-- Valid statuses that are not terminal are active. -/
theorem isActive_of_valid_not_terminal (s : String)
    (hv : s = "pending" ∨ s = "running" ∨ s = "completed" ∨ s = "failed")
    (hnt : isTerminal s = false) : isActive s = true := by
  rcases hv with h | h | h | h
  · rw [h]; rfl
  · rw [h]; rfl
  · rw [h] at hnt; exact Bool.noConfusion hnt
  · rw [h] at hnt; exact Bool.noConfusion hnt

/-- C2: on a registry of valid statuses, PrepareSlot below capacity is a
no-op; it errors exactly when the registry is at capacity and every record is
still pending or running; and at capacity with some terminal record it
returns the identifier of a terminal record with the oldest end time. -/
theorem PrepareSlot_spec (ts : TaskStore)
    (hvalid : ∀ p ∈ ts.tasks, p.2.Status = "pending" ∨ p.2.Status = "running" ∨
      p.2.Status = "completed" ∨ p.2.Status = "failed") :
    (ts.tasks.length < ts.maxTasks → ts.PrepareSlot = Except.ok "")
    ∧ ((∃ e, ts.PrepareSlot = Except.error e) ↔
        (¬ ts.tasks.length < ts.maxTasks ∧ ∀ p ∈ ts.tasks, isActive p.2.Status = true))
    ∧ (¬ ts.tasks.length < ts.maxTasks →
        ∀ p ∈ ts.tasks, isTerminal p.2.Status = true →
          ∃ u, (∃ q ∈ ts.tasks, q.2 = u) ∧ isTerminal u.Status = true ∧
            ts.PrepareSlot = Except.ok u.ID ∧
            ∀ r1 ∈ ts.tasks, isTerminal r1.2.Status = true → u.EndTime ≤ r1.2.EndTime) := by
  refine ⟨?_, ?_, ?_⟩
  · intro hlt
    unfold TaskStore.PrepareSlot
    rw [if_pos hlt]
  · constructor
    · rintro ⟨e, he⟩
      unfold TaskStore.PrepareSlot at he
      by_cases hlt : ts.tasks.length < ts.maxTasks
      · rw [if_pos hlt] at he
        exact Except.noConfusion he
      · rw [if_neg hlt] at he
        refine ⟨hlt, ?_⟩
        cases hold : oldestTerminal ts.tasks with
        | some t =>
          rw [hold] at he
          exact Except.noConfusion he
        | none =>
          intro p hp
          exact isActive_of_valid_not_terminal _ (hvalid p hp)
            ((oldestTerminal_none_iff ts.tasks).mp hold p hp)
    · rintro ⟨hlt, hall⟩
      unfold TaskStore.PrepareSlot
      rw [if_neg hlt]
      cases hold : oldestTerminal ts.tasks with
      | none => exact ⟨_, rfl⟩
      | some t =>
        obtain ⟨⟨p0, hp0, hp0e⟩, htT, _⟩ := oldestTerminal_some_spec ts.tasks t hold
        have hact := hall p0 hp0
        rw [hp0e] at hact
        have hfalse := isTerminal_not_isActive t.Status htT
        rw [hact] at hfalse
        exact Bool.noConfusion hfalse
  · intro hlt p hp hpT
    cases hold : oldestTerminal ts.tasks with
    | none =>
      have hnever := (oldestTerminal_none_iff ts.tasks).mp hold p hp
      rw [hnever] at hpT
      exact Bool.noConfusion hpT
    | some u =>
      obtain ⟨hmem, huT, humin⟩ := oldestTerminal_some_spec ts.tasks u hold
      refine ⟨u, hmem, huT, ?_, humin⟩
      unfold TaskStore.PrepareSlot
      rw [if_neg hlt, hold]

/-- Witness for C2 at a registry at capacity 2 holding a completed record
that ended earlier and a failed record that ended later. -/
theorem PrepareSlot_spec_w :
    (¬ ([("1", (⟨"1", "Tool1", "completed", "done", 0, 5⟩ : AsyncTask)),
        ("2", ⟨"2", "Tool2", "failed", "error", 0, 10⟩)]).length < 2)
    ∧ ∃ u, (∃ q ∈ ([("1", (⟨"1", "Tool1", "completed", "done", 0, 5⟩ : AsyncTask)),
          ("2", ⟨"2", "Tool2", "failed", "error", 0, 10⟩)]), q.2 = u)
        ∧ isTerminal u.Status = true
        ∧ TaskStore.PrepareSlot ⟨[("1", ⟨"1", "Tool1", "completed", "done", 0, 5⟩),
            ("2", ⟨"2", "Tool2", "failed", "error", 0, 10⟩)], 2⟩ = Except.ok u.ID
        ∧ ∀ r1 ∈ ([("1", (⟨"1", "Tool1", "completed", "done", 0, 5⟩ : AsyncTask)),
            ("2", ⟨"2", "Tool2", "failed", "error", 0, 10⟩)]),
            isTerminal r1.2.Status = true → u.EndTime ≤ r1.2.EndTime :=
  ⟨by decide,
   (PrepareSlot_spec ⟨[("1", ⟨"1", "Tool1", "completed", "done", 0, 5⟩),
       ("2", ⟨"2", "Tool2", "failed", "error", 0, 10⟩)], 2⟩ (by decide)).2.2
     (by decide) ("1", ⟨"1", "Tool1", "completed", "done", 0, 5⟩) (by decide) (by decide)⟩

end SimpleMCP

namespace SimpleMCP

/-- C3 counterexample: the code rejects a path whose cleaned form merely
contains two adjacent dots inside a file name, although the path is relative,
has no parent-directory segment, and joins to a path with the base as textual
prefix — so resolvePath does not fail only under the condition the claim
states. -/
theorem resolvePath_claim_cex :
    isOkB (resolvePath "/data" "a..b") = false
    ∧ claimedFailCond "/data" "a..b" = false := by
  exact ⟨by decide, by decide⟩

/-- C3 amended: resolvePath fails exactly when the path is absolute, or the
cleaned path contains the two-character substring of dots (not only a whole
parent-directory segment), or the join does not have the base as textual
prefix; on success it returns the join of the base with the cleaned path; the
traversal and absolute examples fail for every base, and the relative example
resolves under the base. -/
theorem resolvePath_spec (base path : String) :
    (isOkB (resolvePath base path) = true ↔
      (goIsAbs path = false ∧ strContains (goClean path) ".." = false ∧
        strStartsWith (goJoin base (goClean path)) base = true))
    ∧ (∀ res, resolvePath base path = Except.ok res → res = goJoin base (goClean path))
    ∧ resolvePath base "../etc/passwd" = Except.error "path must not contain \x27..\x27"
    ∧ resolvePath base "/etc/passwd" = Except.error "absolute paths are not allowed"
    ∧ resolvePath "/data" "a/b.txt" = Except.ok "/data/a/b.txt"
    ∧ strStartsWith "/data/a/b.txt" "/data" = true := by
  refine ⟨?_, ?_, ?_, ?_, by rfl, by decide⟩
  · cases h1 : goIsAbs path with
    | true => simp [resolvePath, isOkB, h1]
    | false =>
      cases h2 : strContains (goClean path) ".." with
      | true => simp [resolvePath, isOkB, h1, h2]
      | false =>
        cases h3 : strStartsWith (goJoin base (goClean path)) base with
        | true => simp [resolvePath, isOkB, h1, h2, h3]
        | false => simp [resolvePath, isOkB, h1, h2, h3]
  · intro res hres
    cases h1 : goIsAbs path with
    | true => simp [resolvePath, h1] at hres
    | false =>
      cases h2 : strContains (goClean path) ".." with
      | true => simp [resolvePath, h1, h2] at hres
      | false =>
        cases h3 : strStartsWith (goJoin base (goClean path)) base with
        | false => simp [resolvePath, h1, h2, h3] at hres
        | true =>
          simp [resolvePath, h1, h2, h3] at hres
          exact hres.symm
  · have h1 : goIsAbs "../etc/passwd" = false := by decide
    have h2 : strContains (goClean "../etc/passwd") ".." = true := by decide
    simp [resolvePath, h1, h2]
  · have h1 : goIsAbs "/etc/passwd" = true := by decide
    simp [resolvePath, h1]

/-- Witness for C3 (amended): the success equation instantiated at the
relative example. -/
theorem resolvePath_spec_w :
    resolvePath "/data" "a/b.txt" = Except.ok "/data/a/b.txt"
    ∧ ("/data/a/b.txt" : String) = goJoin "/data" (goClean "a/b.txt") :=
  ⟨by rfl, (resolvePath_spec "/data" "a/b.txt").2.1 "/data/a/b.txt" (by rfl)⟩

end SimpleMCP
